import Mathlib

/-!
Student Rep Portal — verification of the persistence and data-exchange
model.

Shallow embedding of `src/App.jsx` (a single-file React application).

Conventions of the embedding:

* Browser `localStorage` is modelled as an association list from `String`
  keys to raw stored text (`List Char`), with `getItem`/`setItem` mirroring
  the platform's first-match read and in-place overwrite.
* `JSON.stringify` / `JSON.parse` are platform primitives, not repository
  code.  They are modelled by an executable printer and parser over a JSON
  value type `Json`.  JSON numbers are IEEE-754 doubles in the platform and
  are therefore outside the scalar model (no persisted value of this
  application is numeric: every stored field is a string, `null`, a boolean,
  an array or an object).  The printer escapes `"` and `\` exactly as the
  platform does; escaping of control characters, and the purely cosmetic
  whitespace produced by `JSON.stringify(value, null, 2)` (which
  `JSON.parse` ignores), are elided.
* Text is modelled as `List Char` (`Str`) so that induction over string
  contents is direct.
-/

abbrev Str := List Char

/-! ## JSON values (`JSON.stringify` / `JSON.parse` platform model) -/

mutual

inductive Json where
  | null : Json
  | bool (b : Bool) : Json
  | str (s : Str) : Json
  | arr (elems : JArr) : Json
  | obj (fields : JObj) : Json

inductive JArr where
  | nil : JArr
  | cons (hd : Json) (tl : JArr) : JArr

inductive JObj where
  | onil : JObj
  | ocons (k : Str) (v : Json) (tl : JObj) : JObj

end

deriving instance DecidableEq for Json, JArr, JObj

/-- String-body escaping performed by `JSON.stringify`: a quote or a
backslash is preceded by a backslash; other characters pass through. -/
def escape : Str → Str
  | [] => []
  | c :: rest =>
    if c = '"' ∨ c = '\\' then '\\' :: c :: escape rest else c :: escape rest

/-- A JSON string literal: quote, escaped body, quote. -/
def printKey (k : Str) : Str := '"' :: (escape k ++ ['"'])

mutual

/-- The serialized text of a JSON value (model of `JSON.stringify`). -/
def Json.print : Json → Str
  | .null => 'n' :: ['u', 'l', 'l']
  | .bool true => 't' :: ['r', 'u', 'e']
  | .bool false => 'f' :: ['a', 'l', 's', 'e']
  | .str s => printKey s
  | .arr .nil => '[' :: [']']
  | .arr (.cons h t) => '[' :: (Json.print h ++ JArr.printRest t)
  | .obj .onil => '\x7b' :: ['\x7d']
  | .obj (.ocons k v t) =>
      '\x7b' :: (printKey k ++ ':' :: (Json.print v ++ JObj.printRest t))

/-- Serialized text of the elements of a nonempty array after its first
element: each further element is preceded by a comma, and the closing
bracket ends the array. -/
def JArr.printRest : JArr → Str
  | .nil => [']']
  | .cons h t => ',' :: (Json.print h ++ JArr.printRest t)

/-- Serialized text of the fields of a nonempty object after its first
field. -/
def JObj.printRest : JObj → Str
  | .onil => ['\x7d']
  | .ocons k v t => ',' :: (printKey k ++ ':' :: (Json.print v ++ JObj.printRest t))

end

/-- Parse the body of a JSON string literal (the opening quote already
consumed): a backslash takes the following character literally, a bare
quote ends the string. -/
def parseStr : Str → Option (Str × Str)
  | [] => none
  | c :: rest =>
    if c = '"' then some ([], rest)
    else if c = '\\' then
      match rest with
      | [] => none
      | c2 :: rest2 => (parseStr rest2).map fun p => (c2 :: p.1, p.2)
    else (parseStr rest).map fun p => (c :: p.1, p.2)

mutual

/-- Fuel-indexed JSON value parser (model of `JSON.parse`); returns the
parsed value and the unconsumed suffix. -/
def parseV : Nat → Str → Option (Json × Str)
  | 0, _ => none
  | f + 1, cs =>
    match cs with
    | 'n' :: 'u' :: 'l' :: 'l' :: rest => some (.null, rest)
    | 't' :: 'r' :: 'u' :: 'e' :: rest => some (.bool true, rest)
    | 'f' :: 'a' :: 'l' :: 's' :: 'e' :: rest => some (.bool false, rest)
    | '"' :: rest => (parseStr rest).map fun p => (.str p.1, p.2)
    | '[' :: rest =>
      if rest.head? = some ']' then some (.arr .nil, rest.tail)
      else (parseElems f rest).map fun p => (.arr p.1, p.2)
    | '\x7b' :: rest =>
      if rest.head? = some '\x7d' then some (.obj .onil, rest.tail)
      else (parseFields f rest).map fun p => (.obj p.1, p.2)
    | _ => none

/-- Parse the elements of a nonempty array (opening bracket consumed). -/
def parseElems : Nat → Str → Option (JArr × Str)
  | 0, _ => none
  | f + 1, cs =>
    match parseV f cs with
    | none => none
    | some (v, rest) =>
      match rest with
      | ']' :: r => some (.cons v .nil, r)
      | ',' :: r => (parseElems f r).map fun p => (.cons v p.1, p.2)
      | _ => none

/-- Parse the fields of a nonempty object (opening brace consumed). -/
def parseFields : Nat → Str → Option (JObj × Str)
  | 0, _ => none
  | f + 1, cs =>
    match cs with
    | '"' :: cs1 =>
      match parseStr cs1 with
      | none => none
      | some (k, rest) =>
        match rest with
        | ':' :: rest1 =>
          match parseV f rest1 with
          | none => none
          | some (v, rest2) =>
            match rest2 with
            | '\x7d' :: r => some (.ocons k v .onil, r)
            | ',' :: r => (parseFields f r).map fun p => (.ocons k v p.1, p.2)
            | _ => none
        | _ => none
    | _ => none

end

mutual

/-- Recursion budget a parse of this value needs (strings cost no fuel:
`parseStr` is not fuel-indexed). -/
def sizeJ : Json → Nat
  | .null => 1
  | .bool _ => 1
  | .str _ => 1
  | .arr xs => 1 + sizeA xs
  | .obj kvs => 1 + sizeO kvs

def sizeA : JArr → Nat
  | .nil => 0
  | .cons h t => 1 + sizeJ h + sizeA t

def sizeO : JObj → Nat
  | .onil => 0
  | .ocons _ v t => 1 + sizeJ v + sizeO t

end

/-- Model of `JSON.stringify` (indentation elided, see the header). -/
def JSON.stringify (v : Json) : Str := Json.print v

/-- Model of `JSON.parse`: `none` is a thrown `SyntaxError` (a parse must
consume the whole input). -/
def JSON.parse (s : Str) : Option Json :=
  match parseV (s.length + 1) s with
  | some (v, []) => some v
  | _ => none

/-! ## Round-trip: the parser inverts the printer -/

theorem one_le_sizeJ (v : Json) : 1 ≤ sizeJ v := by
  cases v <;> simp only [sizeJ] <;> omega

theorem parseStr_escape (s : Str) (rest : Str) :
    parseStr (escape s ++ ('"' :: rest)) = some (s, rest) := by
  induction s with
  | nil =>
    simp only [escape, List.nil_append]
    rw [parseStr.eq_def]
    simp
  | cons c s ih =>
    by_cases hc : c = '"' ∨ c = '\\'
    · simp only [escape, if_pos hc, List.cons_append]
      rw [parseStr.eq_def]
      simp [ih]
    · push_neg at hc
      have hne : ¬(c = '"' ∨ c = '\\') := by simp [hc.1, hc.2]
      simp only [escape, if_neg hne, List.cons_append]
      rw [parseStr.eq_def]
      simp [hc.1, hc.2, ih]

theorem print_head (v : Json) :
    ∃ c cs, Json.print v = c :: cs ∧ c ≠ ']' ∧ c ≠ '\x7d' := by
  cases v with
  | null => exact ⟨'n', _, rfl, by decide, by decide⟩
  | bool b =>
    cases b with
    | false => exact ⟨'f', _, rfl, by decide, by decide⟩
    | true => exact ⟨'t', _, rfl, by decide, by decide⟩
  | str s => exact ⟨'"', escape s ++ ['"'], rfl, by decide, by decide⟩
  | arr xs =>
    cases xs with
    | nil => exact ⟨'[', _, rfl, by decide, by decide⟩
    | cons h t => exact ⟨'[', _, rfl, by decide, by decide⟩
  | obj kvs =>
    cases kvs with
    | onil => exact ⟨'\x7b', _, rfl, by decide, by decide⟩
    | ocons k v t => exact ⟨'\x7b', _, rfl, by decide, by decide⟩

theorem parse_print_aux : ∀ f : Nat,
      (∀ v rest, sizeJ v ≤ f → parseV f (Json.print v ++ rest) = some (v, rest))
    ∧ (∀ h t rest, sizeA (.cons h t) ≤ f →
        parseElems f (Json.print h ++ (JArr.printRest t ++ rest)) =
          some (.cons h t, rest))
    ∧ (∀ k v t rest, sizeO (.ocons k v t) ≤ f →
        parseFields f (printKey k ++ (':' :: (Json.print v ++ (JObj.printRest t ++ rest)))) =
          some (.ocons k v t, rest))
    ∧ (∀ v, sizeJ v ≤ f → sizeJ v ≤ (Json.print v).length)
    ∧ (∀ t, sizeA t ≤ f → sizeA t + 1 ≤ (JArr.printRest t).length)
    ∧ (∀ t, sizeO t ≤ f → sizeO t + 1 ≤ (JObj.printRest t).length) := by
  intro f
  induction f with
  | zero =>
    refine ⟨?_, ?_, ?_, ?_, ?_, ?_⟩
    · intro v rest hv; exact absurd hv (by have := one_le_sizeJ v; omega)
    · intro h t rest hs; simp only [sizeA] at hs; omega
    · intro k v t rest hs; simp only [sizeO] at hs; omega
    · intro v hv; exact absurd hv (by have := one_le_sizeJ v; omega)
    · intro t ht
      cases t with
      | nil => simp [sizeA, JArr.printRest]
      | cons h t2 => simp only [sizeA] at ht; omega
    · intro t ht
      cases t with
      | onil => simp [sizeO, JObj.printRest]
      | ocons k v t2 => simp only [sizeO] at ht; omega
  | succ f ih =>
    obtain ⟨ihA, ihB, ihC, ihA2, ihB2, ihC2⟩ := ih
    refine ⟨?_, ?_, ?_, ?_, ?_, ?_⟩
    · -- parseV inverts Json.print
      intro v rest hv
      cases v with
      | null => simp [Json.print, parseV]
      | bool b => cases b <;> simp [Json.print, parseV]
      | str s =>
        simp only [Json.print, printKey, List.cons_append, List.append_assoc,
          List.singleton_append, parseV]
        rw [parseStr_escape]
        rfl
      | arr xs =>
        cases xs with
        | nil => simp [Json.print, parseV]
        | cons h t =>
          obtain ⟨c, cs, hpr, hc1, _⟩ := print_head h
          have hcond : (Json.print h ++ (JArr.printRest t ++ rest)).head? = some c := by
            rw [hpr]; rfl
          have hsz : sizeA (.cons h t) ≤ f := by
            simp only [sizeJ] at hv; omega
          simp only [Json.print, List.cons_append, List.append_assoc, parseV]
          rw [hcond, if_neg (by simp [hc1]), ihB h t rest hsz]
          rfl
      | obj kvs =>
        cases kvs with
        | onil => simp [Json.print, parseV]
        | ocons k v t =>
          have hcond :
              (printKey k ++ (':' :: (Json.print v ++ (JObj.printRest t ++ rest)))).head? =
                some '"' := rfl
          have hsz : sizeO (.ocons k v t) ≤ f := by
            simp only [sizeJ] at hv; omega
          simp only [Json.print, List.cons_append, List.append_assoc, parseV]
          rw [hcond, if_neg (by decide), ihC k v t rest hsz]
          rfl
    · -- parseElems inverts a nonempty element list
      intro h t rest hs
      have h1 : sizeJ h ≤ f := by simp only [sizeA] at hs; omega
      simp only [parseElems]
      rw [ihA h (JArr.printRest t ++ rest) h1]
      cases t with
      | nil => simp [JArr.printRest]
      | cons h2 t2 =>
        have h2s : sizeA (.cons h2 t2) ≤ f := by
          have := one_le_sizeJ h
          simp only [sizeA] at hs ⊢; omega
        simp [JArr.printRest, ihB h2 t2 rest h2s]
    · -- parseFields inverts a nonempty field list
      intro k v t rest hs
      have h1 : sizeJ v ≤ f := by simp only [sizeO] at hs; omega
      simp only [printKey, List.cons_append, List.append_assoc, List.singleton_append,
        List.nil_append, parseFields]
      rw [parseStr_escape]
      cases t with
      | onil =>
        have hA := ihA v ('\x7d' :: rest) h1
        simp [JObj.printRest, hA]
      | ocons k2 v2 t2 =>
        have h2s : sizeO (.ocons k2 v2 t2) ≤ f := by
          have := one_le_sizeJ v
          simp only [sizeO] at hs ⊢; omega
        have hA := ihA v
          (',' :: (printKey k2 ++ (':' :: (Json.print v2 ++ (JObj.printRest t2 ++ rest))))) h1
        have hC := ihC k2 v2 t2 rest h2s
        simp [JObj.printRest, hA, hC]
    · -- the printed text is at least as long as the needed budget
      intro v hv
      cases v with
      | null => simp [sizeJ, Json.print]
      | bool b => cases b <;> simp [sizeJ, Json.print]
      | str s => simp [sizeJ, Json.print, printKey]
      | arr xs =>
        cases xs with
        | nil => simp [sizeJ, sizeA, Json.print]
        | cons h t =>
          have h1 : sizeJ h ≤ f := by simp only [sizeJ, sizeA] at hv; omega
          have h2 : sizeA t ≤ f := by simp only [sizeJ, sizeA] at hv; omega
          have g1 := ihA2 h h1
          have g2 := ihB2 t h2
          simp only [sizeJ, sizeA, Json.print, List.length_cons, List.length_append]
          omega
      | obj kvs =>
        cases kvs with
        | onil => simp [sizeJ, sizeO, Json.print]
        | ocons k v t =>
          have h1 : sizeJ v ≤ f := by simp only [sizeJ, sizeO] at hv; omega
          have h2 : sizeO t ≤ f := by simp only [sizeJ, sizeO] at hv; omega
          have g1 := ihA2 v h1
          have g2 := ihC2 t h2
          simp only [sizeJ, sizeO, Json.print, printKey, List.length_cons,
            List.length_append, List.length_singleton]
          omega
    · -- element-list budgets against printed length
      intro t ht
      cases t with
      | nil => simp [sizeA, JArr.printRest]
      | cons h t2 =>
        have h1 : sizeJ h ≤ f := by simp only [sizeA] at ht; omega
        have h2 : sizeA t2 ≤ f := by simp only [sizeA] at ht; omega
        have g1 := ihA2 h h1
        have g2 := ihB2 t2 h2
        simp only [sizeA, JArr.printRest, List.length_cons, List.length_append]
        omega
    · -- field-list budgets against printed length
      intro t ht
      cases t with
      | onil => simp [sizeO, JObj.printRest]
      | ocons k v t2 =>
        have h1 : sizeJ v ≤ f := by simp only [sizeO] at ht; omega
        have h2 : sizeO t2 ≤ f := by simp only [sizeO] at ht; omega
        have g1 := ihA2 v h1
        have g2 := ihC2 t2 h2
        simp only [sizeO, JObj.printRest, printKey, List.length_cons,
          List.length_append, List.length_singleton]
        omega

theorem sizeJ_le_print_length (v : Json) : sizeJ v ≤ (Json.print v).length :=
  (parse_print_aux (sizeJ v)).2.2.2.1 v le_rfl

theorem parseV_print (f : Nat) (v : Json) (rest : Str) (hf : sizeJ v ≤ f) :
    parseV f (Json.print v ++ rest) = some (v, rest) :=
  (parse_print_aux f).1 v rest hf

/-- `JSON.parse` inverts `JSON.stringify` on every JSON value. -/
theorem JSON.parse_stringify (v : Json) :
    JSON.parse (JSON.stringify v) = some v := by
  unfold JSON.parse JSON.stringify
  have h : parseV ((Json.print v).length + 1) (Json.print v ++ []) = some (v, []) :=
    parseV_print _ v []
      (le_trans (sizeJ_le_print_length v) (Nat.le_succ _))
  rw [List.append_nil] at h
  rw [h]

/-- The serialized text of a JSON value is never the empty string. -/
theorem stringify_ne_nil (v : Json) : JSON.stringify v ≠ [] := by
  intro h
  have hlen := sizeJ_le_print_length v
  have hone := one_le_sizeJ v
  unfold JSON.stringify at h
  rw [h] at hlen
  simp at hlen
  omega

/-! ## The storage layer (`localStorage` platform model)

`localStorage` maps string keys to string values; `getItem` returns `null`
(here `none`) for an absent key, and `setItem` overwrites in place. -/

abbrev Storage := List (String × Str)

def getItem : Storage → String → Option Str
  | [], _ => none
  | (k, v) :: rest, key => if k = key then some v else getItem rest key

def setItem : Storage → String → Str → Storage
  | [], key, val => [(key, val)]
  | (k, v) :: rest, key, val =>
    if k = key then (key, val) :: rest else (k, v) :: setItem rest key val

theorem getItem_setItem_self (st : Storage) (key : String) (val : Str) :
    getItem (setItem st key val) key = some val := by
  induction st with
  | nil => simp [setItem, getItem]
  | cons p rest ih =>
    obtain ⟨k, v⟩ := p
    by_cases h : k = key
    · simp [setItem, getItem, h]
    · simp [setItem, getItem, h, ih]

theorem getItem_setItem_ne (st : Storage) (key key' : String) (val : Str)
    (h : key ≠ key') : getItem (setItem st key val) key' = getItem st key' := by
  induction st with
  | nil => simp [setItem, getItem, h]
  | cons p rest ih =>
    obtain ⟨k, v⟩ := p
    by_cases hk : k = key
    · subst hk
      simp [setItem, getItem, h, ih]
    · simp [setItem, getItem, hk, ih]

/-- Rewriting a key with the exact text it already holds does not change
the store. -/
theorem setItem_same (st : Storage) (key : String) (val : Str)
    (h : getItem st key = some val) : setItem st key val = st := by
  induction st with
  | nil => simp [getItem] at h
  | cons p rest ih =>
    obtain ⟨k, v⟩ := p
    by_cases hk : k = key
    · subst hk
      simp [getItem] at h
      simp [setItem, h]
    · simp [getItem, hk] at h
      simp [setItem, hk, ih h]

/-! ## The storage adapter (`saveToStorage` / `loadFromStorage`, App.jsx
lines 16–26) -/

/-- `saveToStorage(key, value)`: `localStorage.setItem(key,
JSON.stringify(value))`. -/
def saveToStorage (st : Storage) (key : String) (value : Json) : Storage :=
  setItem st key (JSON.stringify value)

/-- `loadFromStorage(key, fallback)`: reads the raw text under `key` and
returns `raw ? JSON.parse(raw) : fallback`, the whole body wrapped in
`try/catch` with the `catch` returning `fallback` — so an absent key, an
empty stored string (falsy in JS) and a parse error all yield `fallback`,
and no error reaches the caller. -/
def loadFromStorage (st : Storage) (key : String) (fallback : Json) : Json :=
  match getItem st key with
  | some raw => if raw.isEmpty then fallback else (JSON.parse raw).getD fallback
  | none => fallback

theorem load_after_save (st : Storage) (key : String) (value fallback : Json) :
    loadFromStorage (saveToStorage st key value) key fallback = value := by
  unfold loadFromStorage saveToStorage
  rw [getItem_setItem_self]
  dsimp only
  rw [if_neg (by simp [List.isEmpty_iff, stringify_ne_nil value])]
  rw [JSON.parse_stringify]
  rfl

/-- Claim C1: storage round-trip.  For every store, every key, every JSON
value and every fallback, `loadFromStorage` after `saveToStorage` on the
same key returns a value equal to the one saved. -/
theorem save_load_roundtrip (st : Storage) (key : String) (value fallback : Json) :
    loadFromStorage (saveToStorage st key value) key fallback = value :=
  load_after_save st key value fallback

/-- Claim C2: fallback on bad read.  If the key is absent, or the stored
text does not deserialize, `loadFromStorage` returns the fallback (and,
being a total function, surfaces no error). -/
theorem load_bad_read_fallback (st : Storage) (key : String) (fallback : Json)
    (h : getItem st key = none ∨
      ∃ raw, getItem st key = some raw ∧ JSON.parse raw = none) :
    loadFromStorage st key fallback = fallback := by
  unfold loadFromStorage
  rcases h with h | ⟨raw, hraw, hparse⟩
  · rw [h]
  · rw [hraw]
    dsimp only
    by_cases he : raw.isEmpty
    · rw [if_pos he]
    · rw [if_neg he, hparse]
      rfl

/-- Witness for C2 at concrete inputs: the key `"sr_messages"` holding the
corrupt text `"xyz"` falls back, and so does an absent key. -/
theorem load_bad_read_fallback_witness :
    loadFromStorage [("sr_messages", "xyz".toList)] "sr_messages" (.arr .nil) =
        .arr .nil
      ∧ loadFromStorage [] "sr_messages" (.bool true) = .bool true := by
  constructor
  · exact load_bad_read_fallback _ _ _ (Or.inr ⟨"xyz".toList, by decide, by decide⟩)
  · exact load_bad_read_fallback _ _ _ (Or.inl (by decide))

/-! ## Domain records (spec §3) -/

structure AttachedFile where
  name : Str
  size : Str
  data : Str
deriving DecidableEq

structure Message where
  id : Str
  name : Str
  email : Str
  subject : Str
  message : Str
  file : Option AttachedFile
  createdAt : Str
  status : Str
deriving DecidableEq

structure Resource where
  id : Str
  name : Str
  size : Str
  data : Str
  createdAt : Str
deriving DecidableEq

structure Info where
  id : Str
  title : Str
  body : Str
  createdAt : Str
deriving DecidableEq

/-- A file chosen in a file input: its name, its byte count, and the data
URI that `readFileAsBase64` produces for it (the asynchronous read is a
platform primitive, so its result is an input of the model). -/
structure FileInput where
  name : Str
  size : Nat
  dataUrl : Str
deriving DecidableEq

/-! ## Contact form submission (`Contact.handleSubmit`, App.jsx 120–151) -/

/-- `Contact.handleSubmit`, modelled as the pure message construction:
`uid("msg")` and `new Date().toISOString()` are nondeterministic, so they
are inputs (`newId`, `now`).  `name || "Anonymous"` and
`subject || "General"` substitute the default exactly when the field is
the empty string (the only falsy string).  `Math.round(file.size / 1024)`
on an integer byte count is `(size + 512) / 1024`. -/
def handleSubmit (name email subject message : Str) (file : Option FileInput)
    (newId now : Str) : Message :=
  { id := newId
    name := if name.isEmpty then "Anonymous".toList else name
    email := email
    subject := if subject.isEmpty then "General".toList else subject
    message := message
    file := file.map fun f =>
      { name := f.name
        size := (Nat.repr ((f.size + 512) / 1024)).toList ++ " KB".toList
        data := f.dataUrl }
    createdAt := now
    status := "unread".toList }

/-- Claim C3: submitting the contact form with a non-empty body and empty
name, email and subject and no attached file produces a message whose name
is "Anonymous", whose subject is "General", whose body is the submitted
text, with no file, and status "unread". -/
theorem contact_defaulting (body newId now : Str) (hbody : body ≠ []) :
    (handleSubmit [] [] [] body none newId now).name = "Anonymous".toList
  ∧ (handleSubmit [] [] [] body none newId now).subject = "General".toList
  ∧ (handleSubmit [] [] [] body none newId now).message = body
  ∧ (handleSubmit [] [] [] body none newId now).file = none
  ∧ (handleSubmit [] [] [] body none newId now).status = "unread".toList :=
  ⟨rfl, rfl, rfl, rfl, rfl⟩

/-- Witness for C3 at the spec's own example: body "printer broken". -/
theorem contact_defaulting_witness :
    (handleSubmit [] [] [] "printer broken".toList none "msg_a1b2c3d".toList
        "2026-01-01T00:00:00.000Z".toList).name = "Anonymous".toList
  ∧ (handleSubmit [] [] [] "printer broken".toList none "msg_a1b2c3d".toList
        "2026-01-01T00:00:00.000Z".toList).subject = "General".toList
  ∧ (handleSubmit [] [] [] "printer broken".toList none "msg_a1b2c3d".toList
        "2026-01-01T00:00:00.000Z".toList).message = "printer broken".toList
  ∧ (handleSubmit [] [] [] "printer broken".toList none "msg_a1b2c3d".toList
        "2026-01-01T00:00:00.000Z".toList).file = none
  ∧ (handleSubmit [] [] [] "printer broken".toList none "msg_a1b2c3d".toList
        "2026-01-01T00:00:00.000Z".toList).status = "unread".toList :=
  contact_defaulting "printer broken".toList _ _ (by decide)

/-! ## App-level state and the delete handlers (App.jsx 355–381)

Each collection held in `useState` is written back to its storage key by a
`useEffect` on every change, so a handler that changes a collection is
modelled together with that write-back.  `confirm(...)` is a user
decision and enters as the Boolean `confirmed`. -/

/-- `JSON.stringify` of a JS array of these records walks the fields in
object-literal insertion order. -/
def encodeAttachment (f : AttachedFile) : Json :=
  .obj (.ocons "name".toList (.str f.name)
    (.ocons "size".toList (.str f.size)
    (.ocons "data".toList (.str f.data) .onil)))

def encodeMessage (m : Message) : Json :=
  .obj (.ocons "id".toList (.str m.id)
    (.ocons "name".toList (.str m.name)
    (.ocons "email".toList (.str m.email)
    (.ocons "subject".toList (.str m.subject)
    (.ocons "message".toList (.str m.message)
    (.ocons "file".toList ((m.file.map encodeAttachment).getD .null)
    (.ocons "createdAt".toList (.str m.createdAt)
    (.ocons "status".toList (.str m.status) .onil))))))))

def encodeResource (r : Resource) : Json :=
  .obj (.ocons "id".toList (.str r.id)
    (.ocons "name".toList (.str r.name)
    (.ocons "size".toList (.str r.size)
    (.ocons "data".toList (.str r.data)
    (.ocons "createdAt".toList (.str r.createdAt) .onil)))))

def encodeInfo (i : Info) : Json :=
  .obj (.ocons "id".toList (.str i.id)
    (.ocons "title".toList (.str i.title)
    (.ocons "body".toList (.str i.body)
    (.ocons "createdAt".toList (.str i.createdAt) .onil))))

def jarrOfList : List Json → JArr
  | [] => .nil
  | v :: rest => .cons v (jarrOfList rest)

def encodeMessages (l : List Message) : Json := .arr (jarrOfList (l.map encodeMessage))
def encodeResources (l : List Resource) : Json := .arr (jarrOfList (l.map encodeResource))
def encodeInfos (l : List Info) : Json := .arr (jarrOfList (l.map encodeInfo))

structure AppState where
  messages : List Message
  resources : List Resource
  infos : List Info
  storage : Storage
deriving DecidableEq

/-- `handleDeleteMessage(id)`: returns unchanged unless the confirmation
is accepted; otherwise keeps exactly the messages whose id differs
(`prev.filter(m => m.id !== id)`) and persists the new collection. -/
def handleDeleteMessage (confirmed : Bool) (a : AppState) (id : Str) : AppState :=
  if confirmed then
    let msgs := a.messages.filter fun m => m.id ≠ id
    { a with messages := msgs
             storage := saveToStorage a.storage "sr_messages" (encodeMessages msgs) }
  else a

/-- `handleDeleteResource(id)`, same shape over the resource collection. -/
def handleDeleteResource (confirmed : Bool) (a : AppState) (id : Str) : AppState :=
  if confirmed then
    let ress := a.resources.filter fun r => r.id ≠ id
    { a with resources := ress
             storage := saveToStorage a.storage "sr_resources" (encodeResources ress) }
  else a

theorem filter_ne_of_all_ne {α : Type} (idOf : α → Str) (id : Str) (l : List α)
    (h : ∀ x ∈ l, idOf x ≠ id) : l.filter (fun x => idOf x ≠ id) = l :=
  List.filter_eq_self.mpr (by intro x hx; simpa using h x hx)

/-- Claim C4: a confirmed delete with an id matching no entry leaves the
collection unchanged (messages and resources alike). -/
theorem delete_absent_noop (a : AppState) (id : Str)
    (hm : ∀ m ∈ a.messages, m.id ≠ id) (hr : ∀ r ∈ a.resources, r.id ≠ id) :
    (handleDeleteMessage true a id).messages = a.messages
  ∧ (handleDeleteResource true a id).resources = a.resources := by
  exact ⟨filter_ne_of_all_ne Message.id id a.messages hm,
    filter_ne_of_all_ne Resource.id id a.resources hr⟩

def msgA : Message :=
  { id := "msg_aaaaaaa".toList, name := "Ada".toList, email := []
    subject := "General".toList, message := "hello".toList, file := none
    createdAt := "2026-01-01T00:00:00.000Z".toList, status := "unread".toList }

def resA : Resource :=
  { id := "res_aaaaaaa".toList, name := "syllabus.pdf".toList
    size := "12 KB".toList, data := "data:application/pdf;base64,AAAA".toList
    createdAt := "2026-01-01T00:00:00.000Z".toList }

/-- Witness for C4: deleting an id present in neither collection. -/
theorem delete_absent_noop_witness :
    (handleDeleteMessage true ⟨[msgA], [resA], [], []⟩ "msg_zzzzzzz".toList).messages
        = [msgA]
  ∧ (handleDeleteResource true ⟨[msgA], [resA], [], []⟩ "msg_zzzzzzz".toList).resources
        = [resA] :=
  delete_absent_noop _ _ (by decide) (by decide)

/-- The (unenforced) happy path of a delete: filtering away one id that
occurs exactly once removes that entry and keeps everything else. -/
theorem filter_single_out {α : Type} (idOf : α → Str) (id : Str)
    (pre post : List α) (m : α) (hid : idOf m = id)
    (hpre : ∀ x ∈ pre, idOf x ≠ id) (hpost : ∀ x ∈ post, idOf x ≠ id) :
    (pre ++ m :: post).filter (fun x => idOf x ≠ id) = pre ++ post := by
  rw [List.filter_append, filter_ne_of_all_ne idOf id pre hpre, List.filter_cons,
    filter_ne_of_all_ne idOf id post hpost]
  simp [hid]

def dupId : Str := "msg_dup0000".toList

def dupMsg1 : Message :=
  { id := dupId, name := "A".toList, email := [], subject := "s1".toList
    message := "first".toList, file := none, createdAt := [], status := "unread".toList }

def dupMsg2 : Message :=
  { id := dupId, name := "B".toList, email := [], subject := "s2".toList
    message := "second".toList, file := none, createdAt := [], status := "unread".toList }

def dupState : AppState :=
  { messages := [dupMsg1, dupMsg2], resources := [], infos := [], storage := [] }

/-- Counterexample to claim C5 as stated: identifier uniqueness is not
enforced, and on a collection with two messages sharing an id a confirmed
delete removes both — the result does not have exactly one fewer entry,
and the entry after the first match is not retained. -/
theorem delete_removes_all_counterexample :
    ¬ ((handleDeleteMessage true dupState dupId).messages.length =
          dupState.messages.length - 1
        ∧ dupMsg2 ∈ (handleDeleteMessage true dupState dupId).messages) := by
  decide

/-- Claim C5 amended: a confirmed delete removes every entry whose
identifier equals the given id.  In particular, when exactly one entry of
the collection bears that id (the collection splits as `pre ++ [m] ++
post` with no other match), the result is `pre ++ post`: exactly one fewer
entry, with all entries other than the match — including those after it —
retained in order; likewise for resources. -/
theorem delete_removes_matching (a : AppState) (id : Str)
    (pre post : List Message) (m : Message)
    (hsplit : a.messages = pre ++ m :: post) (hid : m.id = id)
    (hpre : ∀ x ∈ pre, x.id ≠ id) (hpost : ∀ x ∈ post, x.id ≠ id)
    (rpre rpost : List Resource) (r : Resource)
    (rsplit : a.resources = rpre ++ r :: rpost) (rid : r.id = id)
    (hrpre : ∀ x ∈ rpre, x.id ≠ id) (hrpost : ∀ x ∈ rpost, x.id ≠ id) :
    (handleDeleteMessage true a id).messages = pre ++ post
  ∧ (handleDeleteMessage true a id).messages.length + 1 = a.messages.length
  ∧ (handleDeleteResource true a id).resources = rpre ++ rpost
  ∧ (handleDeleteResource true a id).resources.length + 1 = a.resources.length := by
  have hm : (handleDeleteMessage true a id).messages = pre ++ post := by
    simp only [handleDeleteMessage, if_pos rfl]
    rw [hsplit]
    exact filter_single_out Message.id id pre post m hid hpre hpost
  have hr : (handleDeleteResource true a id).resources = rpre ++ rpost := by
    simp only [handleDeleteResource, if_pos rfl]
    rw [rsplit]
    exact filter_single_out Resource.id id rpre rpost r rid hrpre hrpost
  refine ⟨hm, ?_, hr, ?_⟩
  · rw [hm, hsplit]; simp only [List.length_append, List.length_cons]; omega
  · rw [hr, rsplit]; simp only [List.length_append, List.length_cons]; omega

def resB : Resource :=
  { id := dupId, name := "notes.txt".toList, size := "1 KB".toList
    data := "data:text/plain;base64,QQ==".toList, createdAt := [] }

/-- Witness for the amended C5: each collection holds exactly one entry
with the deleted id, the message flanked by a non-matching entry. -/
theorem delete_removes_matching_witness :
    (handleDeleteMessage true ⟨[msgA, dupMsg1], [resB], [], []⟩ dupId).messages
        = [msgA]
  ∧ (handleDeleteMessage true ⟨[msgA, dupMsg1], [resB], [], []⟩ dupId).messages.length
        + 1 = 2
  ∧ (handleDeleteResource true ⟨[msgA, dupMsg1], [resB], [], []⟩ dupId).resources
        = []
  ∧ (handleDeleteResource true ⟨[msgA, dupMsg1], [resB], [], []⟩ dupId).resources.length
        + 1 = 1 := by
  have h := delete_removes_matching ⟨[msgA, dupMsg1], [resB], [], []⟩ dupId
    [msgA] [] dupMsg1 rfl rfl (by decide) (by decide)
    [] [] resB rfl rfl (by decide) (by decide)
  exact ⟨h.1, h.2.1, h.2.2.1, h.2.2.2⟩

/-- Claim C10: declining the confirmation prompt leaves the whole
application state — every collection and the persisted storage —
unchanged. -/
theorem delete_cancel_noop (a : AppState) (id : Str) :
    handleDeleteMessage false a id = a ∧ handleDeleteResource false a id = a :=
  ⟨rfl, rfl⟩

/-! ## Export / Import (App.jsx 327–348) -/

/-- Property lookup on the fields of a parsed JSON object: with duplicate
keys `JSON.parse` keeps the last occurrence, so the lookup prefers later
fields. -/
def JObj.lookup : JObj → Str → Option Json
  | .onil, _ => none
  | .ocons k v t, key =>
    match JObj.lookup t key with
    | some r => some r
    | none => if k = key then some v else none

/-- JS property access `data[field]` on a parsed JSON value: only an
object has properties; on anything else the access yields `undefined`
(`none`). -/
def jget : Json → Str → Option Json
  | .obj fields, key => JObj.lookup fields key
  | _, _ => none

/-- `Array.isArray(x)` applied to a maybe-absent property value. -/
def optIsArray : Option Json → Bool
  | some (.arr _) => true
  | _ => false

/-- The export dump `{ messages, resources, infos:
loadFromStorage('sr_infos', []) }`: the first two fields come from React
state, the third is re-read from storage. -/
def exportDump (messages resources : JArr) (st : Storage) : Json :=
  .obj (.ocons "messages".toList (.arr messages)
    (.ocons "resources".toList (.arr resources)
    (.ocons "infos".toList (loadFromStorage st "sr_infos" (.arr .nil)) .onil)))

/-- The text of the exported file, `JSON.stringify(dump, null, 2)`; the
indentation argument only inserts whitespace that `JSON.parse` ignores,
and the model elides it. -/
def exportText (messages resources : JArr) (st : Storage) : Str :=
  JSON.stringify (exportDump messages resources st)

/-- One conditional overwrite of the import handler:
`if (Array.isArray(data[field])) saveToStorage(key, data[field])`. -/
def importStep (key : String) (field : Str) (data : Json) (st : Storage) : Storage :=
  match jget data field with
  | some (.arr xs) => saveToStorage st key (.arr xs)
  | _ => st

/-- The `import-file` change handler: parse the file text; on a parse
error (`alert('Invalid file.')`) storage is untouched; on success each of
the three recognized keys is overwritten when its value is an array.  The
subsequent `window.location.reload()` only re-reads state and does not
touch storage. -/
def importFile (st : Storage) (text : Str) : Storage :=
  match JSON.parse text with
  | none => st
  | some data =>
    importStep "sr_infos" "infos".toList data
      (importStep "sr_resources" "resources".toList data
        (importStep "sr_messages" "messages".toList data st))

theorem importStep_ne (key : String) (field : Str) (data : Json) (st : Storage)
    (k : String) (h : key ≠ k) :
    getItem (importStep key field data st) k = getItem st k := by
  unfold importStep
  cases hj : jget data field with
  | none => rfl
  | some v =>
    cases v with
    | arr xs => exact getItem_setItem_ne st key k _ h
    | null => rfl
    | bool b => rfl
    | str s => rfl
    | obj kvs => rfl

theorem importStep_arr (key : String) (field : Str) (data : Json) (st : Storage)
    (xs : JArr) (h : jget data field = some (.arr xs)) :
    importStep key field data st = saveToStorage st key (.arr xs) := by
  unfold importStep
  rw [h]

theorem importStep_notarr (key : String) (field : Str) (data : Json) (st : Storage)
    (h : optIsArray (jget data field) = false) :
    importStep key field data st = st := by
  unfold importStep
  cases hj : jget data field with
  | none => rfl
  | some v =>
    cases v with
    | arr xs => rw [hj] at h; simp [optIsArray] at h
    | null => rfl
    | bool b => rfl
    | str s => rfl
    | obj kvs => rfl

/-- Claim C6: exporting and immediately importing the resulting bundle
(no intervening mutation) leaves the persisted collections — indeed the
whole store — unchanged.  The hypotheses say the store is consistent with
the exported in-memory state, which the `useEffect` write-backs maintain
at all times. -/
theorem export_import_roundtrip (st : Storage) (msgs ress infos : JArr)
    (hm : getItem st "sr_messages" = some (JSON.stringify (.arr msgs)))
    (hr : getItem st "sr_resources" = some (JSON.stringify (.arr ress)))
    (hi : getItem st "sr_infos" = some (JSON.stringify (.arr infos))) :
    importFile st (exportText msgs ress st) = st := by
  have hload : loadFromStorage st "sr_infos" (.arr .nil) = .arr infos := by
    unfold loadFromStorage
    rw [hi]
    dsimp only
    rw [if_neg (by simp [List.isEmpty_iff, stringify_ne_nil]), JSON.parse_stringify]
    rfl
  have h1 : jget (.obj (.ocons "messages".toList (.arr msgs)
      (.ocons "resources".toList (.arr ress)
      (.ocons "infos".toList (.arr infos) .onil)))) "messages".toList =
        some (.arr msgs) := rfl
  have h2 : jget (.obj (.ocons "messages".toList (.arr msgs)
      (.ocons "resources".toList (.arr ress)
      (.ocons "infos".toList (.arr infos) .onil)))) "resources".toList =
        some (.arr ress) := rfl
  have h3 : jget (.obj (.ocons "messages".toList (.arr msgs)
      (.ocons "resources".toList (.arr ress)
      (.ocons "infos".toList (.arr infos) .onil)))) "infos".toList =
        some (.arr infos) := rfl
  unfold exportText exportDump importFile
  rw [hload, JSON.parse_stringify]
  dsimp only
  rw [importStep_arr _ _ _ st msgs h1]
  rw [show saveToStorage st "sr_messages" (.arr msgs) = st from setItem_same _ _ _ hm]
  rw [importStep_arr _ _ _ st ress h2]
  rw [show saveToStorage st "sr_resources" (.arr ress) = st from setItem_same _ _ _ hr]
  rw [importStep_arr _ _ _ st infos h3]
  exact setItem_same _ _ _ hi

def emptyExportStore : Storage :=
  [("sr_messages", JSON.stringify (.arr .nil)),
   ("sr_resources", JSON.stringify (.arr .nil)),
   ("sr_infos", JSON.stringify (.arr .nil))]

/-- Witness for C6 on a concrete consistent store. -/
theorem export_import_roundtrip_witness :
    importFile emptyExportStore (exportText .nil .nil emptyExportStore) =
      emptyExportStore :=
  export_import_roundtrip emptyExportStore .nil .nil .nil (by decide) (by decide)
    (by decide)

/-- Claim C8: for any imported JSON value, a recognized key whose value is
an array replaces the corresponding persisted collection wholesale; a
recognized key that is absent or not an array leaves that collection
unchanged; and no other storage key is affected at all. -/
theorem import_selective (st : Storage) (data : Json) :
    (∀ xs, jget data "messages".toList = some (.arr xs) →
      getItem (importFile st (JSON.stringify data)) "sr_messages" =
        some (JSON.stringify (.arr xs)))
  ∧ (optIsArray (jget data "messages".toList) = false →
      getItem (importFile st (JSON.stringify data)) "sr_messages" =
        getItem st "sr_messages")
  ∧ (∀ xs, jget data "resources".toList = some (.arr xs) →
      getItem (importFile st (JSON.stringify data)) "sr_resources" =
        some (JSON.stringify (.arr xs)))
  ∧ (optIsArray (jget data "resources".toList) = false →
      getItem (importFile st (JSON.stringify data)) "sr_resources" =
        getItem st "sr_resources")
  ∧ (∀ xs, jget data "infos".toList = some (.arr xs) →
      getItem (importFile st (JSON.stringify data)) "sr_infos" =
        some (JSON.stringify (.arr xs)))
  ∧ (optIsArray (jget data "infos".toList) = false →
      getItem (importFile st (JSON.stringify data)) "sr_infos" =
        getItem st "sr_infos")
  ∧ (∀ key : String, key ≠ "sr_messages" → key ≠ "sr_resources" → key ≠ "sr_infos" →
      getItem (importFile st (JSON.stringify data)) key = getItem st key) := by
  have hrun : importFile st (JSON.stringify data) =
      importStep "sr_infos" "infos".toList data
        (importStep "sr_resources" "resources".toList data
          (importStep "sr_messages" "messages".toList data st)) := by
    unfold importFile
    rw [JSON.parse_stringify]
  refine ⟨?_, ?_, ?_, ?_, ?_, ?_, ?_⟩
  · intro xs h
    rw [hrun, importStep_ne _ _ _ _ _ (by decide), importStep_ne _ _ _ _ _ (by decide),
      importStep_arr _ _ _ _ xs h]
    exact getItem_setItem_self _ _ _
  · intro h
    rw [hrun, importStep_ne _ _ _ _ _ (by decide), importStep_ne _ _ _ _ _ (by decide),
      importStep_notarr _ _ _ _ h]
  · intro xs h
    rw [hrun, importStep_ne _ _ _ _ _ (by decide), importStep_arr _ _ _ _ xs h]
    exact getItem_setItem_self _ _ _
  · intro h
    rw [hrun, importStep_ne _ _ _ _ _ (by decide), importStep_notarr _ _ _ _ h,
      importStep_ne _ _ _ _ _ (by decide)]
  · intro xs h
    rw [hrun, importStep_arr _ _ _ _ xs h]
    exact getItem_setItem_self _ _ _
  · intro h
    rw [hrun, importStep_notarr _ _ _ _ h, importStep_ne _ _ _ _ _ (by decide),
      importStep_ne _ _ _ _ _ (by decide)]
  · intro key h1 h2 h3
    rw [hrun, importStep_ne _ _ _ _ _ (Ne.symm h3), importStep_ne _ _ _ _ _ (Ne.symm h2),
      importStep_ne _ _ _ _ _ (Ne.symm h1)]

def importDemo : Json :=
  .obj (.ocons "messages".toList (.arr .nil)
    (.ocons "resources".toList (.str "nope".toList)
    (.ocons "junk".toList .null .onil)))

def importDemoStore : Storage :=
  [("sr_messages", "old".toList), ("sr_resources", "keep".toList),
   ("zkey", "z".toList)]

/-- Witness for C8: a bundle whose `messages` is an array (replaced),
whose `resources` is a string (collection untouched), with `infos` absent
(untouched) and a junk key (no effect); an unrelated storage key is also
untouched. -/
theorem import_selective_witness :
    getItem (importFile importDemoStore (JSON.stringify importDemo)) "sr_messages" =
      some (JSON.stringify (.arr .nil))
  ∧ getItem (importFile importDemoStore (JSON.stringify importDemo)) "sr_resources" =
      some "keep".toList
  ∧ getItem (importFile importDemoStore (JSON.stringify importDemo)) "sr_infos" = none
  ∧ getItem (importFile importDemoStore (JSON.stringify importDemo)) "zkey" =
      some "z".toList := by
  have h := import_selective importDemoStore importDemo
  refine ⟨h.1 .nil rfl, ?_, ?_, ?_⟩
  · exact (h.2.2.2.1 (by decide)).trans (by decide)
  · exact (h.2.2.2.2.2.1 (by decide)).trans (by decide)
  · exact (h.2.2.2.2.2.2 "zkey" (by decide) (by decide) (by decide)).trans (by decide)

/-! ## Admin gate (App.jsx 10, 187–201) -/

def DEFAULT_ADMIN_PASSWORD : Str := "Unbrella01".toList

structure AdminState where
  loggedIn : Bool
  pw : Str
deriving DecidableEq

/-- JS truthiness of a JSON value (numbers are outside the model; of the
modelled values `null`, `false` and the empty string are the falsy ones). -/
def Json.truthy : Json → Bool
  | .null => false
  | .bool b => b
  | .str s => !s.isEmpty
  | .arr _ => true
  | .obj _ => true

/-- `Admin.login`: on input equal to `DEFAULT_ADMIN_PASSWORD`, set the
logged-in flag, persist `true` under `sr_admin_logged` and clear the
password field; on any other input (`alert(...)`) leave component state
and storage unchanged. -/
def login (a : AdminState) (st : Storage) : AdminState × Storage :=
  if a.pw = DEFAULT_ADMIN_PASSWORD then
    ({ loggedIn := true, pw := [] }, saveToStorage st "sr_admin_logged" (.bool true))
  else (a, st)

/-- The `useEffect` that runs when the Admin component mounts (in
particular after a reload): the gate is open iff the value loaded from
`sr_admin_logged` with fallback `false` is truthy. -/
def adminMount (st : Storage) : Bool :=
  (loadFromStorage st "sr_admin_logged" (.bool false)).truthy

/-- Claim C7: submitting the fixed constant password logs the admin in and
persists the flag, so the gate is still open after a simulated reload; any
other input leaves state and storage (hence the persisted flag) exactly as
they were. -/
theorem admin_gate (a : AdminState) (st : Storage) :
    (a.pw = DEFAULT_ADMIN_PASSWORD →
      (login a st).1.loggedIn = true ∧ adminMount (login a st).2 = true)
  ∧ (a.pw ≠ DEFAULT_ADMIN_PASSWORD → login a st = (a, st)) := by
  constructor
  · intro h
    unfold login
    rw [if_pos h]
    refine ⟨rfl, ?_⟩
    show (loadFromStorage (saveToStorage st "sr_admin_logged" (.bool true))
      "sr_admin_logged" (.bool false)).truthy = true
    rw [load_after_save]
    rfl
  · intro h
    unfold login
    rw [if_neg h]

/-- Witness for C7: the correct password opens and persists the gate; a
wrong one changes nothing. -/
theorem admin_gate_witness :
    ((login ⟨false, "Unbrella01".toList⟩ []).1.loggedIn = true
      ∧ adminMount (login ⟨false, "Unbrella01".toList⟩ []).2 = true)
  ∧ login ⟨false, "letmein".toList⟩ [] = (⟨false, "letmein".toList⟩, []) :=
  ⟨(admin_gate ⟨false, "Unbrella01".toList⟩ []).1 (by decide),
   (admin_gate ⟨false, "letmein".toList⟩ []).2 (by decide)⟩

/-! ## Display order (App.jsx 64–109, 261, 295) -/

structure InfoCard where
  key : Str
  title : Str
  body : Str
  posted : Str
deriving DecidableEq

/-- `Home`: `infos.map(info => <article key={info.id} ...>)` — one card
per announcement, in array order. -/
def Home (infos : List Info) : List InfoCard :=
  infos.map fun i => { key := i.id, title := i.title, body := i.body, posted := i.createdAt }

structure FileRow where
  key : Str
  name : Str
  size : Str
  uploaded : Str
  href : Str
deriving DecidableEq

/-- `FilesPage`: `resources.map(r => <li key={r.id} ...>)`. -/
def FilesPage (resources : List Resource) : List FileRow :=
  resources.map fun r =>
    { key := r.id, name := r.name, size := r.size, uploaded := r.createdAt, href := r.data }

/-- `xs.slice().reverse()`: `slice()` copies and `reverse()` mutates that
copy in place, so the pair is (the sequence rendered, the underlying
collection after the call). -/
def sliceReverse {α : Type} (l : List α) : List α × List α := (l.reverse, l)

structure MsgRow where
  key : Str
  subject : Str
  sender : Str
  body : Str
deriving DecidableEq

/-- Admin messages list:
`messages.slice().reverse().map(m => <li key={m.id} ...>)`. -/
def adminMessageRows (messages : List Message) : List MsgRow :=
  (sliceReverse messages).1.map fun m =>
    { key := m.id, subject := m.subject, sender := m.name, body := m.message }

structure ResRow where
  key : Str
  name : Str
  size : Str
deriving DecidableEq

/-- Admin resources list:
`resources.slice().reverse().map(r => <li key={r.id} ...>)`. -/
def adminResourceRows (resources : List Resource) : List ResRow :=
  (sliceReverse resources).1.map fun r => { key := r.id, name := r.name, size := r.size }

/-- Claim C9: Home and Files render their lists in insertion order, the
Admin lists render in reverse insertion order, and the reversal acts on a
copy — the underlying collection after rendering is the original. -/
theorem display_order (infos : List Info) (msgs : List Message) (ress : List Resource) :
    (Home infos).map InfoCard.key = infos.map Info.id
  ∧ (FilesPage ress).map FileRow.key = ress.map Resource.id
  ∧ (adminMessageRows msgs).map MsgRow.key = (msgs.map Message.id).reverse
  ∧ (adminResourceRows ress).map ResRow.key = (ress.map Resource.id).reverse
  ∧ (sliceReverse msgs).2 = msgs ∧ (sliceReverse ress).2 = ress := by
  refine ⟨?_, ?_, ?_, ?_, rfl, rfl⟩ <;>
    simp [Home, FilesPage, adminMessageRows, adminResourceRows, sliceReverse,
      List.map_map, List.map_reverse, Function.comp]
